import Mathlib

/-!
Verification of the string-analysis service (`src/main.py`).

The Python source is shallowly embedded below.  Strings are Lean `String`
(a packed `List Char`); Python byte strings are `List Nat` with each entry
below 256; machine words of the hash are `Nat` reduced modulo `2 ^ 32`.
Python's `hashlib.sha256(...).hexdigest()` is embedded as a full executable
SHA-256 over the UTF-8 encoding of the text.  The mutable module-level dict
`stored_strings` becomes explicit state passing over an association list
that records insertion order, exactly as a CPython dict does.
-/

namespace StringService

/-! ## SHA-256 (model of `hashlib.sha256(text.encode()).hexdigest()`) -/

/-- Reduce a natural number to a 32-bit word. -/
def w32 (n : Nat) : Nat := n % 4294967296

/-- Right rotation of a 32-bit word by `n` places. -/
def rotr32 (n x : Nat) : Nat := w32 ((x >>> n) ||| (x <<< (32 - n)))

/-- Bitwise complement of a 32-bit word. -/
def not32 (x : Nat) : Nat := 4294967295 - (x % 4294967296)

/-- SHA-256 `Ch` function. -/
def ch32 (x y z : Nat) : Nat := (x &&& y) ^^^ (not32 x &&& z)

/-- SHA-256 `Maj` function. -/
def maj32 (x y z : Nat) : Nat := (x &&& y) ^^^ (x &&& z) ^^^ (y &&& z)

/-- SHA-256 big sigma 0. -/
def bsig0 (x : Nat) : Nat := rotr32 2 x ^^^ rotr32 13 x ^^^ rotr32 22 x

/-- SHA-256 big sigma 1. -/
def bsig1 (x : Nat) : Nat := rotr32 6 x ^^^ rotr32 11 x ^^^ rotr32 25 x

/-- SHA-256 small sigma 0. -/
def ssig0 (x : Nat) : Nat := rotr32 7 x ^^^ rotr32 18 x ^^^ (x >>> 3)

/-- SHA-256 small sigma 1. -/
def ssig1 (x : Nat) : Nat := rotr32 17 x ^^^ rotr32 19 x ^^^ (x >>> 10)

/-- The eight working variables of the SHA-256 compression function. -/
structure Hash8 where
  a : Nat
  b : Nat
  c : Nat
  d : Nat
  e : Nat
  f : Nat
  g : Nat
  h : Nat
deriving DecidableEq

/-- SHA-256 initial hash value. -/
def initH8 : Hash8 :=
  ⟨1779033703, 3144134277, 1013904242, 2773480762,
   1359893119, 2600822924, 528734635, 1541459225⟩

/-- SHA-256 round constants. -/
def sha256K : List Nat :=
  [1116352408, 1899447441, 3049323471, 3921009573,
   961987163, 1508970993, 2453635748, 2870763221,
   3624381080, 310598401, 607225278, 1426881987,
   1925078388, 2162078206, 2614888103, 3248222580,
   3835390401, 4022224774, 264347078, 604807628,
   770255983, 1249150122, 1555081692, 1996064986,
   2554220882, 2821834349, 2952996808, 3210313671,
   3336571891, 3584528711, 113926993, 338241895,
   666307205, 773529912, 1294757372, 1396182291,
   1695183700, 1986661051, 2177026350, 2456956037,
   2730485921, 2820302411, 3259730800, 3345764771,
   3516065817, 3600352804, 4094571909, 275423344,
   430227734, 506948616, 659060556, 883997877,
   958139571, 1322822218, 1537002063, 1747873779,
   1955562222, 2024104815, 2227730452, 2361852424,
   2428436474, 2756734187, 3204031479, 3329325298]

/-- Group a byte list into big-endian 32-bit words (four bytes per word). -/
def toWords : List Nat → List Nat
  | b0 :: b1 :: b2 :: b3 :: rest => (((b0 * 256 + b1) * 256 + b2) * 256 + b3) :: toWords rest
  | _ => []

/-- Extend a 16-word message schedule by `k` further words. -/
def extendSchedule : Nat → List Nat → List Nat
  | 0, ws => ws
  | k + 1, ws =>
    let len := ws.length
    let next := w32 (ssig1 (ws.getD (len - 2) 0) + ws.getD (len - 7) 0 +
                     ssig0 (ws.getD (len - 15) 0) + ws.getD (len - 16) 0)
    extendSchedule k (ws ++ [next])

/-- One SHA-256 round: consume a round constant paired with a schedule word. -/
def roundStep (st : Hash8) (kw : Nat × Nat) : Hash8 :=
  let t1 := w32 (st.h + bsig1 st.e + ch32 st.e st.f st.g + kw.1 + kw.2)
  let t2 := w32 (bsig0 st.a + maj32 st.a st.b st.c)
  ⟨w32 (t1 + t2), st.a, st.b, st.c, w32 (st.d + t1), st.e, st.f, st.g⟩

/-- Process one 64-byte block, updating the running hash value. -/
def processBlock (st : Hash8) (block : List Nat) : Hash8 :=
  let ws := extendSchedule 48 (toWords block)
  let r := (sha256K.zip ws).foldl roundStep st
  ⟨w32 (st.a + r.a), w32 (st.b + r.b), w32 (st.c + r.c), w32 (st.d + r.d),
   w32 (st.e + r.e), w32 (st.f + r.f), w32 (st.g + r.g), w32 (st.h + r.h)⟩

/-- Big-endian byte decomposition of a natural number into `k` bytes. -/
def natToBytesBE : Nat → Nat → List Nat
  | 0, _ => []
  | k + 1, n => natToBytesBE k (n / 256) ++ [n % 256]

/-- SHA-256 padding: append `0x80`, zero bytes, and the 64-bit bit length. -/
def padMessage (msg : List Nat) : List Nat :=
  let padZeros := (119 - msg.length % 64) % 64
  msg ++ [0x80] ++ List.replicate padZeros 0 ++ natToBytesBE 8 (msg.length * 8)

/-- Split a byte list into consecutive 64-byte chunks. -/
def chunks64 (l : List Nat) : List (List Nat) :=
  if hl : l = [] then []
  else l.take 64 :: chunks64 (l.drop 64)
termination_by l.length
decreasing_by
  simp only [List.length_drop]
  have hpos : 0 < l.length := List.length_pos.mpr hl
  omega

/-- SHA-256 digest of a byte string, as a list of 32 bytes. -/
def sha256Bytes (msg : List Nat) : List Nat :=
  let fin := (chunks64 (padMessage msg)).foldl processBlock initH8
  ([fin.a, fin.b, fin.c, fin.d, fin.e, fin.f, fin.g, fin.h].map (natToBytesBE 4)).flatten

/-! ## UTF-8 encoding (model of Python `str.encode()`) and hex digest -/

/-- UTF-8 encoding of one character. -/
def utf8EncodeChar (c : Char) : List Nat :=
  let n := c.toNat
  if n < 0x80 then [n]
  else if n < 0x800 then
    [0xC0 ||| (n >>> 6), 0x80 ||| (n &&& 0x3F)]
  else if n < 0x10000 then
    [0xE0 ||| (n >>> 12), 0x80 ||| ((n >>> 6) &&& 0x3F), 0x80 ||| (n &&& 0x3F)]
  else
    [0xF0 ||| (n >>> 18), 0x80 ||| ((n >>> 12) &&& 0x3F),
     0x80 ||| ((n >>> 6) &&& 0x3F), 0x80 ||| (n &&& 0x3F)]

/-- UTF-8 encoding of a string, as Python `text.encode()` produces. -/
def utf8Encode (s : String) : List Nat := (s.data.map utf8EncodeChar).flatten

/-- Lowercase hexadecimal digit for a value below 16. -/
def hexChar (n : Nat) : Char :=
  if n < 10 then Char.ofNat (48 + n) else Char.ofNat (87 + n)

/-- Two lowercase hex digits of one byte, high nibble first. -/
def byteToHex (b : Nat) : List Char := [hexChar (b / 16 % 16), hexChar (b % 16)]

/-- `StringAnalysis.compute_hash`: lowercase hex SHA-256 of the UTF-8 bytes. -/
def compute_hash (text : String) : String :=
  ⟨((sha256Bytes (utf8Encode text)).map byteToHex).flatten⟩

/-! ## `StringAnalysis`: the analyzer -/

/-- Model of Python `str.lower()` (ASCII case mapping suffices here). -/
def pyLower (s : String) : String := ⟨s.data.map Char.toLower⟩

/-- `StringAnalysis.check_palindrome`: lowercase, compare with the reversal. -/
def check_palindrome (text : String) : Bool :=
  let cleaned := pyLower text
  cleaned == ⟨cleaned.data.reverse⟩

/-- `StringAnalysis.count_unique_chars`: `len(set(text))`. -/
def count_unique_chars (text : String) : Nat := text.data.dedup.length

/-- The characters Python `str.split()` treats as whitespace (ASCII part). -/
def isPyWhitespace (c : Char) : Bool :=
  c == ' ' || c == '\t' || c == '\n' || c == '\r' || c == '\x0b' || c == '\x0c'

/-- Accumulating scanner behind `pySplit`: `cur` holds the reversed current
word; whitespace closes the word, other characters extend it. -/
def splitWsAux : List Char → List Char → List (List Char)
  | [], cur => if cur.isEmpty then [] else [cur.reverse]
  | c :: rest, cur =>
    if isPyWhitespace c then
      if cur.isEmpty then splitWsAux rest []
      else cur.reverse :: splitWsAux rest []
    else splitWsAux rest (c :: cur)

/-- Model of Python `text.split()`: maximal runs of non-whitespace. -/
def pySplit (s : String) : List (List Char) := splitWsAux s.data []

/-- `StringAnalysis.count_words`: `len(text.split())`. -/
def count_words (text : String) : Nat := (pySplit text).length

/-- One step of `build_char_frequency`: `frequency[char] = frequency.get(char, 0) + 1`
on an insertion-ordered association list (a CPython dict keeps the position
of an existing key and appends a new one). -/
def bumpChar (m : List (Char × Nat)) (c : Char) : List (Char × Nat) :=
  match m with
  | [] => [(c, 1)]
  | (c₀, n) :: rest => if c₀ = c then (c₀, n + 1) :: rest else (c₀, n) :: bumpChar rest c

/-- `StringAnalysis.build_char_frequency`: per-character occurrence counts. -/
def build_char_frequency (text : String) : List (Char × Nat) :=
  text.data.foldl bumpChar []

/-- The property bundle produced by `StringAnalysis.analyze`. -/
structure Analysis where
  length : Nat
  is_palindrome : Bool
  unique_characters : Nat
  word_count : Nat
  sha256_hash : String
  character_frequency_map : List (Char × Nat)
deriving DecidableEq

/-- `StringAnalysis.analyze`. -/
def analyze (text : String) : Analysis :=
  { length := text.data.length
    is_palindrome := check_palindrome text
    unique_characters := count_unique_chars text
    word_count := count_words text
    sha256_hash := compute_hash text
    character_frequency_map := build_char_frequency text }

/-! ## `QueryParser`: phrase and regex matching over the lowercased query -/

/-- Strip a literal pattern from the front of a list, if it is there. -/
def stripPre : List Char → List Char → Option (List Char)
  | [], l => some l
  | _ :: _, [] => none
  | p :: ps, c :: cs => if p = c then stripPre ps cs else none

/-- Python substring containment `pat in l` (contiguous occurrence). -/
def listContains (pat : List Char) : List Char → Bool
  | [] => pat.isEmpty
  | c :: rest => pat.isPrefixOf (c :: rest) || listContains pat rest

/-- Numeric value of a decimal digit run, as Python `int` reads it. -/
def digitsToNat (ds : List Char) : Nat :=
  ds.foldl (fun a c => a * 10 + (c.toNat - 48)) 0

/-- Match `pat` followed by at least one digit at the head of `l`; the
captured group `(\d+)` is the maximal digit run. -/
def matchNumAt (pat l : List Char) : Option Nat :=
  match stripPre pat l with
  | none => none
  | some rest =>
    let ds := rest.takeWhile Char.isDigit
    if ds.isEmpty then none else some (digitsToNat ds)

/-- `re.search` for a literal pattern followed by `(\d+)`: leftmost match. -/
def searchNumPat (pat : List Char) : List Char → Option Nat
  | [] => matchNumAt pat []
  | c :: rest =>
    match matchNumAt pat (c :: rest) with
    | some n => some n
    | none => searchNumPat pat rest

/-- Match `" the letter ([a-z])"` at the head of `l`. -/
def letterAfter (l : List Char) : Option Char :=
  match stripPre (" the letter ").data l with
  | some (c :: _) => if 97 ≤ c.toNat ∧ c.toNat ≤ 122 then some c else none
  | _ => none

/-- Match `"contain(?:s|ing)? the letter ([a-z])"` at the head of `l`,
trying the alternatives of the optional group in regex order. -/
def matchContainAt (l : List Char) : Option Char :=
  match stripPre ("contain").data l with
  | none => none
  | some rest =>
    let viaS : Option Char :=
      match stripPre ("s").data rest with
      | some r => letterAfter r
      | none => none
    let viaIng : Option Char :=
      match stripPre ("ing").data rest with
      | some r => letterAfter r
      | none => none
    (viaS.orElse fun _ => viaIng).orElse fun _ => letterAfter rest

/-- `re.search` for the letter-containment pattern: leftmost match. -/
def searchLetterPat : List Char → Option Char
  | [] => matchContainAt []
  | c :: rest =>
    match matchContainAt (c :: rest) with
    | some ch => some ch
    | none => searchLetterPat rest

/-- The sparse condition set built by `QueryParser.extract_filters`.
`max_length` is an `Int` because `"shorter than 0"` produces `-1`. -/
structure Conditions where
  is_palindrome : Option Bool
  word_count : Option Nat
  min_length : Option Int
  max_length : Option Int
  contains_character : Option Char
deriving DecidableEq

/-- The empty condition set. -/
def emptyConditions : Conditions := ⟨none, none, none, none, none⟩

/-- Rule 1: substring `"palindrom"` sets `is_palindrome`. -/
def rule_palindrome (ql : String) (c : Conditions) : Conditions :=
  if listContains ("palindrom").data ql.data then { c with is_palindrome := some true } else c

/-- Rule 2: first of `"single word"`, `"two word"`, `"three word"` wins. -/
def rule_word_count (ql : String) (c : Conditions) : Conditions :=
  if listContains ("single word").data ql.data then { c with word_count := some 1 }
  else if listContains ("two word").data ql.data then { c with word_count := some 2 }
  else if listContains ("three word").data ql.data then { c with word_count := some 3 }
  else c

/-- Rule 3: `"longer than (\d+)"` sets `min_length` to the number plus one. -/
def rule_longer (ql : String) (c : Conditions) : Conditions :=
  match searchNumPat ("longer than ").data ql.data with
  | some n => { c with min_length := some ((n : Int) + 1) }
  | none => c

/-- Rule 4: `"shorter than (\d+)"` sets `max_length` to the number minus one. -/
def rule_shorter (ql : String) (c : Conditions) : Conditions :=
  match searchNumPat ("shorter than ").data ql.data with
  | some n => { c with max_length := some ((n : Int) - 1) }
  | none => c

/-- Rule 5: the letter-containment regex sets `contains_character`. -/
def rule_letter (ql : String) (c : Conditions) : Conditions :=
  match searchLetterPat ql.data with
  | some ch => { c with contains_character := some ch }
  | none => c

/-- Rule 6: substring `"first vowel"` forces `contains_character` to `'a'`. -/
def rule_first_vowel (ql : String) (c : Conditions) : Conditions :=
  if listContains ("first vowel").data ql.data then { c with contains_character := some 'a' } else c

/-- `QueryParser.extract_filters`: the six rules over the lowercased query,
in source order. -/
def extract_filters (query_text : String) : Conditions :=
  let ql := pyLower query_text
  rule_first_vowel ql (rule_letter ql (rule_shorter ql (rule_longer ql
    (rule_word_count ql (rule_palindrome ql emptyConditions)))))

/-! ## `StringFilter` and the record store -/

/-- A stored record, as built by `add_string`.  `created_at` is the
timestamp string; it is threaded in explicitly since `datetime.utcnow()`
is an effect of the environment. -/
structure StringRecord where
  id : String
  value : String
  properties : Analysis
  created_at : String
deriving DecidableEq

/-- `StringFilter.matches_criteria`: the sequence of early-return checks. -/
def matches_criteria (string_data : StringRecord) (filters : Conditions) : Bool :=
  let props := string_data.properties
  if filters.is_palindrome.any fun b => props.is_palindrome != b then false
  else if filters.min_length.any fun m => (props.length : Int) < m then false
  else if filters.max_length.any fun m => (props.length : Int) > m then false
  else if filters.word_count.any fun w => props.word_count != w then false
  else if filters.contains_character.any fun ch => !string_data.value.data.contains ch then false
  else true

/-- `StringFilter.apply_filters`: the list comprehension keeping matches. -/
def apply_filters (data_list : List StringRecord) (filters : Conditions) : List StringRecord :=
  data_list.filter fun item => matches_criteria item filters

/-- The module-level dict `stored_strings`, keyed by hash, in insertion
order (CPython dicts preserve it). -/
abbrev Store := List (String × StringRecord)

/-- Outcome of `add_string`: the created record, HTTP 409, or HTTP 422. -/
inductive AddOutcome where
  | created (record : StringRecord)
  | duplicate
  | invalidValue
deriving DecidableEq

/-- The record literal built inside `add_string`. -/
def build_record (value now : String) : StringRecord :=
  { id := compute_hash value
    value := value
    properties := analyze value
    created_at := now }

/-- `add_string` (`POST /strings`): reject an empty value, reject a hash
already present, otherwise append the new record.  Returns the outcome
paired with the store after the call. -/
def add_string (store : Store) (value now : String) : AddOutcome × Store :=
  if value = "" then (AddOutcome.invalidValue, store)
  else
    let string_hash := compute_hash value
    if (List.map Prod.fst store).contains string_hash then (AddOutcome.duplicate, store)
    else
      let record := build_record value now
      (AddOutcome.created record, store ++ [(string_hash, record)])

/-- Delete the first entry whose record value matches, keeping the rest in
order; `none` when no entry matches (`remove_string`'s 404 path). -/
def removeFirst : Store → String → Option Store
  | [], _ => none
  | (h₀, r) :: rest, v =>
    if r.value = v then some rest
    else (removeFirst rest v).map fun s => (h₀, r) :: s

/-- The store after `remove_string` (`DELETE /strings/...`): unchanged when
the value is absent. -/
def remove_post (store : Store) (value : String) : Store :=
  (removeFirst store value).getD store

/-- Store states reachable from the empty dict by `add_string` and
`remove_string` calls, whatever their outcomes. -/
inductive Reachable : Store → Prop
  | nil : Reachable []
  | ins (s : Store) (v now : String) : Reachable s → Reachable (add_string s v now).2
  | del (s : Store) (v : String) : Reachable s → Reachable (remove_post s v)

/-- Store well-formedness: every entry is keyed by the hash of its value,
the record's `id` repeats the key, and its properties are `analyze` of the
value. -/
def StoreWF (store : Store) : Prop :=
  ∀ p ∈ store, p.1 = compute_hash p.2.value ∧ p.2.id = p.1 ∧
    p.2.properties = analyze p.2.value

/-! ## Spec-side definitions -/

/-- The spec's tokenization for `word_count`: split the text at whitespace
and keep the non-empty tokens. -/
def specTokens (s : String) : List (List Char) :=
  (s.data.splitOnP isPyWhitespace).filter fun t => !t.isEmpty

/-- Count of `c` recorded in a frequency map, zero when absent. -/
def lookupCount (m : List (Char × Nat)) (c : Char) : Nat :=
  match m with
  | [] => 0
  | (c₀, n) :: rest => if c₀ = c then n else lookupCount rest c

/-- A lowercase hexadecimal digit. -/
def isHexLowerDigit (c : Char) : Bool :=
  (48 ≤ c.toNat && c.toNat ≤ 57) || (97 ≤ c.toNat && c.toNat ≤ 102)

/-- The spec's reading of `matches`: every key present in the condition set
constrains the record, absent keys are unconstrained. -/
def specMatches (r : StringRecord) (f : Conditions) : Prop :=
  (∀ b, f.is_palindrome = some b → r.properties.is_palindrome = b) ∧
  (∀ m, f.min_length = some m → m ≤ (r.properties.length : Int)) ∧
  (∀ m, f.max_length = some m → (r.properties.length : Int) ≤ m) ∧
  (∀ w, f.word_count = some w → r.properties.word_count = w) ∧
  (∀ ch, f.contains_character = some ch → ch ∈ r.value.data)

/-! ## Lemmas about the analyzer -/

theorem splitWsAux_eq_go (l cur : List Char) :
    splitWsAux l cur =
      (List.splitOnP.go isPyWhitespace l cur).filter fun t => !t.isEmpty := by
  induction l generalizing cur with
  | nil =>
    cases cur <;> simp [splitWsAux, List.splitOnP.go]
  | cons c rest ih =>
    by_cases hc : isPyWhitespace c = true
    · cases cur <;> simp [splitWsAux, List.splitOnP.go, hc, ih]
    · simp only [Bool.not_eq_true] at hc
      simp [splitWsAux, List.splitOnP.go, hc, ih]

theorem count_words_eq_specTokens (s : String) :
    count_words s = (specTokens s).length := by
  simp [count_words, pySplit, specTokens, List.splitOnP, splitWsAux_eq_go]

theorem splitWsAux_all_ws (l : List Char) (h : l.all isPyWhitespace = true) :
    splitWsAux l [] = [] := by
  induction l with
  | nil => rfl
  | cons c rest ih =>
    simp only [List.all_cons, Bool.and_eq_true] at h
    simp [splitWsAux, h.1, List.isEmpty, ih h.2]

theorem lookupCount_bumpChar_self (m : List (Char × Nat)) (c : Char) :
    lookupCount (bumpChar m c) c = lookupCount m c + 1 := by
  induction m with
  | nil => simp [bumpChar, lookupCount]
  | cons p rest ih =>
    obtain ⟨c₀, n⟩ := p
    by_cases h : c₀ = c <;> simp [bumpChar, lookupCount, h, ih]

theorem lookupCount_bumpChar_ne (m : List (Char × Nat)) (c d : Char) (hcd : d ≠ c) :
    lookupCount (bumpChar m c) d = lookupCount m d := by
  induction m with
  | nil =>
    have hne : ¬ c = d := fun hh => hcd hh.symm
    simp [bumpChar, lookupCount, hne]
  | cons p rest ih =>
    obtain ⟨c₀, n⟩ := p
    by_cases h : c₀ = c
    · subst h
      have hne : ¬ c₀ = d := fun hh => hcd hh.symm
      simp [bumpChar, lookupCount, hne]
    · by_cases h₂ : c₀ = d <;> simp [bumpChar, lookupCount, h, h₂, ih, hcd]

theorem lookupCount_foldl_bumpChar (l : List Char) (m : List (Char × Nat)) (c : Char) :
    lookupCount (l.foldl bumpChar m) c = lookupCount m c + l.count c := by
  induction l generalizing m with
  | nil => simp
  | cons a rest ih =>
    by_cases h : c = a
    · subst h
      simp [List.foldl_cons, ih, lookupCount_bumpChar_self, List.count_cons]
      omega
    · simp [List.foldl_cons, ih, lookupCount_bumpChar_ne _ _ _ h, List.count_cons,
        fun hh => h (by simpa using hh : c = a)]

theorem mem_keys_bumpChar (m : List (Char × Nat)) (c d : Char) :
    d ∈ (bumpChar m c).map Prod.fst ↔ d ∈ m.map Prod.fst ∨ d = c := by
  induction m with
  | nil => simp [bumpChar, eq_comm]
  | cons p rest ih =>
    obtain ⟨c₀, n⟩ := p
    by_cases h : c₀ = c
    · subst h
      by_cases h₂ : d = c₀ <;> simp [bumpChar, h₂]
    · simp [bumpChar, h, ih]
      tauto

theorem mem_keys_foldl_bumpChar (l : List Char) (m : List (Char × Nat)) (c : Char) :
    c ∈ (l.foldl bumpChar m).map Prod.fst ↔ c ∈ m.map Prod.fst ∨ c ∈ l := by
  induction l generalizing m with
  | nil => simp
  | cons a rest ih =>
    simp only [List.foldl_cons, ih, mem_keys_bumpChar, List.mem_cons]
    tauto

/-! ## Lemmas about the query parser rules -/

theorem rule_palindrome_word_count (ql : String) (c : Conditions) :
    (rule_palindrome ql c).word_count = c.word_count := by
  unfold rule_palindrome
  split <;> rfl

theorem rule_longer_word_count (ql : String) (c : Conditions) :
    (rule_longer ql c).word_count = c.word_count := by
  unfold rule_longer
  split <;> rfl

theorem rule_shorter_word_count (ql : String) (c : Conditions) :
    (rule_shorter ql c).word_count = c.word_count := by
  unfold rule_shorter
  split <;> rfl

theorem rule_letter_word_count (ql : String) (c : Conditions) :
    (rule_letter ql c).word_count = c.word_count := by
  unfold rule_letter
  split <;> rfl

theorem rule_first_vowel_word_count (ql : String) (c : Conditions) :
    (rule_first_vowel ql c).word_count = c.word_count := by
  unfold rule_first_vowel
  split <;> rfl

theorem rule_shorter_min_length (ql : String) (c : Conditions) :
    (rule_shorter ql c).min_length = c.min_length := by
  unfold rule_shorter
  split <;> rfl

theorem rule_letter_min_length (ql : String) (c : Conditions) :
    (rule_letter ql c).min_length = c.min_length := by
  unfold rule_letter
  split <;> rfl

theorem rule_first_vowel_min_length (ql : String) (c : Conditions) :
    (rule_first_vowel ql c).min_length = c.min_length := by
  unfold rule_first_vowel
  split <;> rfl

theorem rule_letter_max_length (ql : String) (c : Conditions) :
    (rule_letter ql c).max_length = c.max_length := by
  unfold rule_letter
  split <;> rfl

theorem rule_first_vowel_max_length (ql : String) (c : Conditions) :
    (rule_first_vowel ql c).max_length = c.max_length := by
  unfold rule_first_vowel
  split <;> rfl

theorem rule_longer_some (ql : String) (c : Conditions) (n : Nat)
    (h : searchNumPat ("longer than ").data ql.data = some n) :
    (rule_longer ql c).min_length = some ((n : Int) + 1) := by
  unfold rule_longer
  rw [h]

theorem rule_shorter_some (ql : String) (c : Conditions) (n : Nat)
    (h : searchNumPat ("shorter than ").data ql.data = some n) :
    (rule_shorter ql c).max_length = some ((n : Int) - 1) := by
  unfold rule_shorter
  rw [h]

theorem rule_first_vowel_found (ql : String) (c : Conditions)
    (h : listContains ("first vowel").data ql.data = true) :
    (rule_first_vowel ql c).contains_character = some 'a' := by
  unfold rule_first_vowel
  rw [h]
  rfl

theorem rule_word_count_cases (ql : String) (c : Conditions) :
    (rule_word_count ql c).word_count =
      (if listContains ("single word").data ql.data then some 1
       else if listContains ("two word").data ql.data then some 2
       else if listContains ("three word").data ql.data then some 3
       else c.word_count) := by
  unfold rule_word_count
  split
  · rfl
  · split
    · rfl
    · split <;> rfl

/-! ## Lemmas about the store -/

theorem removeFirst_mem (store : Store) (v : String) (s₂ : Store)
    (h : removeFirst store v = some s₂) : ∀ p ∈ s₂, p ∈ store := by
  induction store generalizing s₂ with
  | nil => exact Option.noConfusion h
  | cons q rest ih =>
    obtain ⟨h₀, r⟩ := q
    by_cases hv : r.value = v
    · simp only [removeFirst, if_pos hv, Option.some.injEq] at h
      subst h
      intro p hp
      exact List.mem_cons_of_mem _ hp
    · simp only [removeFirst, if_neg hv] at h
      cases hrec : removeFirst rest v with
      | none => rw [hrec] at h; simp at h
      | some s₃ =>
        rw [hrec] at h
        simp only [Option.map_some', Option.some.injEq] at h
        subst h
        intro p hp
        rcases List.mem_cons.mp hp with hp | hp
        · exact hp ▸ List.mem_cons_self _ _
        · exact List.mem_cons_of_mem _ (ih s₃ hrec p hp)

theorem storeWF_nil : StoreWF [] := by
  intro p hp
  simp at hp

theorem add_string_preserves_WF (store : Store) (value now : String)
    (h : StoreWF store) : StoreWF (add_string store value now).2 := by
  unfold add_string
  dsimp only
  split
  · exact h
  · split
    · exact h
    · intro p hp
      rcases List.mem_append.mp hp with hp | hp
      · exact h p hp
      · rcases List.mem_singleton.mp hp with rfl
        exact ⟨rfl, rfl, rfl⟩

theorem remove_post_preserves_WF (store : Store) (value : String)
    (h : StoreWF store) : StoreWF (remove_post store value) := by
  unfold remove_post
  cases hrem : removeFirst store value with
  | none => exact h
  | some s₂ =>
    intro p hp
    exact h p (removeFirst_mem store value s₂ hrem p hp)

/-! ## The claims -/

/-- C4: `analyze(s).is_palindrome` holds exactly when the lowercasing of
`s` equals its own reversal (nothing is stripped); the empty string and
every single-character string are palindromes, `"Racecar"` is one and
`"hello"` is not. -/
theorem palindrome_C4 (s : String) (c : Char) :
    (analyze s).is_palindrome = check_palindrome s ∧
    (check_palindrome s = true ↔ (pyLower s).data.reverse = (pyLower s).data) ∧
    check_palindrome "" = true ∧
    check_palindrome ⟨[c]⟩ = true ∧
    check_palindrome "Racecar" = true ∧
    check_palindrome "hello" = false := by
  refine ⟨rfl, ?_, by decide, ?_, by decide, by decide⟩
  · simp only [check_palindrome]
    rw [beq_iff_eq, String.ext_iff]
    exact eq_comm
  · simp [check_palindrome, pyLower]

/-- C5: `analyze(s).word_count` is the number of non-empty tokens obtained
by splitting `s` at whitespace; empty and all-whitespace strings count 0,
and `"  a   b c "` counts 3. -/
theorem word_count_C5 (s : String) :
    (analyze s).word_count = count_words s ∧
    count_words s = (specTokens s).length ∧
    (s.data.all isPyWhitespace = true → count_words s = 0) ∧
    count_words "  a   b c " = 3 ∧
    count_words "" = 0 := by
  refine ⟨rfl, count_words_eq_specTokens s, ?_, by decide, rfl⟩
  intro h
  simp [count_words, pySplit, splitWsAux_all_ws s.data h]

/-- C5 witness: an all-whitespace string has word count zero. -/
theorem word_count_C5_witness :
    "   ".data.all isPyWhitespace = true ∧ count_words "   " = 0 :=
  ⟨by decide, (word_count_C5 "   ").2.2.1 (by decide)⟩

/-- C7: `analyze(s).character_frequency_map` records the exact occurrence
count of every character of `s` (case-sensitive, whitespace included), has
exactly the distinct characters of `s` as keys, and maps `"aab"` to
`a ↦ 2, b ↦ 1`. -/
theorem char_frequency_C7 (s : String) (c : Char) :
    (analyze s).character_frequency_map = build_char_frequency s ∧
    lookupCount (build_char_frequency s) c = s.data.count c ∧
    (c ∈ (build_char_frequency s).map Prod.fst ↔ c ∈ s.data) ∧
    build_char_frequency "aab" = [('a', 2), ('b', 1)] := by
  refine ⟨rfl, ?_, ?_, by decide⟩
  · simpa [lookupCount] using lookupCount_foldl_bumpChar s.data [] c
  · simpa using mem_keys_foldl_bumpChar s.data [] c

/-- C3: `matches_criteria` is the conjunction of the constraints present
in the condition set (boolean equality for `is_palindrome`, bounds for
`min_length`/`max_length`, equality for `word_count`, literal character
membership in the raw value for `contains_character`), and `apply_filters`
keeps exactly the matching records in input order. -/
theorem filter_matches_C3 (r : StringRecord) (f : Conditions) (l : List StringRecord) :
    (matches_criteria r f = true ↔ specMatches r f) ∧
    apply_filters l f = l.filter (fun x => matches_criteria x f) ∧
    (∀ x, x ∈ apply_filters l f ↔ x ∈ l ∧ matches_criteria x f = true) ∧
    (apply_filters l f).Sublist l := by
  refine ⟨?_, rfl, fun x => List.mem_filter, List.filter_sublist _⟩
  obtain ⟨pb, wc, mi, ma, cc⟩ := f
  cases pb <;> cases wc <;> cases mi <;> cases ma <;> cases cc <;>
    simp [matches_criteria, specMatches]

/-- C1: a match of `"longer than (\d+)"` in the lowercased query makes
`min_length` the matched number plus one, a match of `"shorter than (\d+)"`
makes `max_length` the matched number minus one (possibly negative and not
rejected); `"strings longer than 5"` yields exactly `min_length = 6`. -/
theorem length_filters_C1 (q : String) :
    (∀ n, searchNumPat ("longer than ").data (pyLower q).data = some n →
      (extract_filters q).min_length = some ((n : Int) + 1)) ∧
    (∀ n, searchNumPat ("shorter than ").data (pyLower q).data = some n →
      (extract_filters q).max_length = some ((n : Int) - 1)) ∧
    extract_filters "strings longer than 5" = ⟨none, none, some 6, none, none⟩ ∧
    (extract_filters "shorter than 0").max_length = some (-1) := by
  refine ⟨?_, ?_, by decide, by decide⟩
  · intro n h
    unfold extract_filters
    rw [rule_first_vowel_min_length, rule_letter_min_length, rule_shorter_min_length]
    exact rule_longer_some _ _ _ h
  · intro n h
    unfold extract_filters
    rw [rule_first_vowel_max_length, rule_letter_max_length]
    exact rule_shorter_some _ _ _ h

/-- C1 witness: the two regex rules applied at concrete queries. -/
theorem length_filters_C1_witness :
    (extract_filters "strings longer than 5").min_length = some (((5 : Nat) : Int) + 1) ∧
    (extract_filters "shorter than 0").max_length = some (((0 : Nat) : Int) - 1) :=
  ⟨(length_filters_C1 "strings longer than 5").1 5 (by decide),
   (length_filters_C1 "shorter than 0").2.1 0 (by decide)⟩

/-- C2: whenever the lowercased query contains `"first vowel"`, the
resulting condition set has `contains_character = 'a'`, overriding whatever
the letter regex matched, since the rule runs last. -/
theorem first_vowel_C2 (q : String)
    (h : listContains ("first vowel").data (pyLower q).data = true) :
    (extract_filters q).contains_character = some 'a' := by
  unfold extract_filters
  exact rule_first_vowel_found _ _ h

/-- C2 witness: a query where the letter rule matched `'z'` and the
`"first vowel"` rule still forces `'a'`. -/
theorem first_vowel_C2_witness :
    (extract_filters "containing the letter z but first vowel").contains_character =
      some 'a' :=
  first_vowel_C2 "containing the letter z but first vowel" (by decide)

/-- C8: the word-count phrases are checked in the priority order
`"single word"`, `"two word"`, `"three word"`; the first hit fixes
`word_count` to 1, 2 or 3 and stops the scan, and without any hit the key
is absent. -/
theorem word_count_phrases_C8 (q : String) :
    (listContains ("single word").data (pyLower q).data = true →
      (extract_filters q).word_count = some 1) ∧
    (listContains ("single word").data (pyLower q).data = false →
     listContains ("two word").data (pyLower q).data = true →
      (extract_filters q).word_count = some 2) ∧
    (listContains ("single word").data (pyLower q).data = false →
     listContains ("two word").data (pyLower q).data = false →
     listContains ("three word").data (pyLower q).data = true →
      (extract_filters q).word_count = some 3) ∧
    (listContains ("single word").data (pyLower q).data = false →
     listContains ("two word").data (pyLower q).data = false →
     listContains ("three word").data (pyLower q).data = false →
      (extract_filters q).word_count = none) := by
  have hwc : (extract_filters q).word_count =
      (rule_word_count (pyLower q) (rule_palindrome (pyLower q) emptyConditions)).word_count := by
    unfold extract_filters
    rw [rule_first_vowel_word_count, rule_letter_word_count,
      rule_shorter_word_count, rule_longer_word_count]
  rw [hwc, rule_word_count_cases, rule_palindrome_word_count]
  refine ⟨fun h₁ => ?_, fun h₁ h₂ => ?_, fun h₁ h₂ h₃ => ?_, fun h₁ h₂ h₃ => ?_⟩ <;>
    simp [h₁]
  · simp [h₂]
  · simp [h₂, h₃]
  · simp [h₂, h₃, emptyConditions]

/-- C8 witness: one query per word-count phrase, and one with none. -/
theorem word_count_phrases_C8_witness :
    (extract_filters "a single word thing").word_count = some 1 ∧
    (extract_filters "two word palindromes").word_count = some 2 ∧
    (extract_filters "three word entries").word_count = some 3 ∧
    (extract_filters "xyz").word_count = none :=
  ⟨(word_count_phrases_C8 "a single word thing").1 (by decide),
   (word_count_phrases_C8 "two word palindromes").2.1 (by decide) (by decide),
   (word_count_phrases_C8 "three word entries").2.2.1 (by decide) (by decide) (by decide),
   (word_count_phrases_C8 "xyz").2.2.2 (by decide) (by decide) (by decide)⟩

theorem isHexLowerDigit_hexChar (n : Nat) (h : n < 16) :
    isHexLowerDigit (hexChar n) = true := by
  interval_cases n <;> decide

theorem compute_hash_chars (s : String) :
    ∀ ch ∈ (compute_hash s).data, isHexLowerDigit ch = true := by
  intro ch hch
  have hch₂ : ch ∈ ((sha256Bytes (utf8Encode s)).map byteToHex).flatten := hch
  rcases List.mem_flatten.mp hch₂ with ⟨l, hl, hcl⟩
  rcases List.mem_map.mp hl with ⟨b, hb, rfl⟩
  simp only [byteToHex, List.mem_cons, List.mem_singleton, List.not_mem_nil,
    or_false] at hcl
  rcases hcl with rfl | rfl
  · exact isHexLowerDigit_hexChar _ (Nat.mod_lt _ (by decide))
  · exact isHexLowerDigit_hexChar _ (Nat.mod_lt _ (by decide))

/-- C6: `analyze(s).sha256_hash` is the lowercase hexadecimal encoding of
the SHA-256 digest of the UTF-8 encoding of `s`, and it is the identifier
and store key that a successful insert uses. -/
theorem sha256_identifier_C6 (s : String) :
    (analyze s).sha256_hash = compute_hash s ∧
    compute_hash s = ⟨((sha256Bytes (utf8Encode s)).map byteToHex).flatten⟩ ∧
    (∀ ch ∈ (compute_hash s).data, isHexLowerDigit ch = true) ∧
    (∀ (store : Store) (now : String) (r : StringRecord) (s₂ : Store),
      add_string store s now = (AddOutcome.created r, s₂) →
      r.id = compute_hash s ∧ s₂ = store ++ [(compute_hash s, r)]) := by
  refine ⟨rfl, rfl, compute_hash_chars s, ?_⟩
  intro store now r s₂ h
  unfold add_string at h
  by_cases h₁ : s = ""
  · rw [if_pos h₁] at h
    simp at h
  · rw [if_neg h₁] at h
    dsimp only at h
    by_cases h₂ : (List.map Prod.fst store).contains (compute_hash s) = true
    · rw [if_pos h₂] at h
      simp at h
    · rw [if_neg h₂] at h
      rw [Prod.mk.injEq] at h
      obtain ⟨hr, hs⟩ := h
      rw [AddOutcome.created.injEq] at hr
      subst hr
      exact ⟨rfl, hs.symm⟩

/-- C6 witness: inserting `"ab"` into the empty store keys the record by
`compute_hash "ab"` and sets its `id` to the same value. -/
theorem sha256_identifier_C6_witness :
    (build_record "ab" "t").id = compute_hash "ab" ∧
    [] ++ [(compute_hash "ab", build_record "ab" "t")] =
      ([] : Store) ++ [(compute_hash "ab", build_record "ab" "t")] :=
  (sha256_identifier_C6 "ab").2.2.2 [] "t" (build_record "ab" "t")
    ([] ++ [(compute_hash "ab", build_record "ab" "t")]) rfl

/-- C9 counterexample: the empty string's hash can be a key of the store,
yet inserting the empty string does not fail with the duplicate error — the
emptiness check fires first with a validation error. -/
theorem insert_duplicate_C9_counterexample :
    compute_hash "" ∈ List.map Prod.fst [(compute_hash "", build_record "" "t0")] ∧
    (add_string [(compute_hash "", build_record "" "t0")] "" "t1").1 =
      AddOutcome.invalidValue ∧
    AddOutcome.invalidValue ≠ AddOutcome.duplicate := by
  refine ⟨by simp, rfl, by decide⟩

/-- C9 (amended): for a nonempty value, an insert whose derived identifier
is already a key fails with the duplicate error and leaves the store
exactly as it was, and an insert whose identifier is absent appends one
record under that identifier and returns it; the empty value is rejected
by validation before the duplicate check, also without mutation. -/
theorem insert_behavior_C9 (store : Store) (value now : String) :
    (value ≠ "" → compute_hash value ∈ List.map Prod.fst store →
      add_string store value now = (AddOutcome.duplicate, store)) ∧
    (value ≠ "" → compute_hash value ∉ List.map Prod.fst store →
      add_string store value now =
        (AddOutcome.created (build_record value now),
         store ++ [(compute_hash value, build_record value now)]) ∧
      (build_record value now).id = compute_hash value ∧
      (build_record value now).value = value ∧
      (store ++ [(compute_hash value, build_record value now)]).length =
        store.length + 1) ∧
    (value = "" → add_string store value now = (AddOutcome.invalidValue, store)) := by
  refine ⟨fun h₁ h₂ => ?_, fun h₁ h₂ => ?_, fun h₁ => ?_⟩
  · unfold add_string
    rw [if_neg h₁]
    dsimp only
    have hc : (List.map Prod.fst store).contains (compute_hash value) = true :=
      List.elem_iff.mpr h₂
    rw [if_pos hc]
  · have hc : ¬ (List.map Prod.fst store).contains (compute_hash value) = true := by
      intro hcon
      exact h₂ (List.elem_iff.mp hcon)
    refine ⟨?_, rfl, rfl, by simp⟩
    unfold add_string
    rw [if_neg h₁]
    dsimp only
    rw [if_neg hc]
  · unfold add_string
    rw [if_pos h₁]

/-- C9 witness: a duplicate insert, a fresh insert and an empty insert at
concrete inputs. -/
theorem insert_behavior_C9_witness :
    add_string [(compute_hash "ab", build_record "ab" "t0")] "ab" "t1" =
      (AddOutcome.duplicate, [(compute_hash "ab", build_record "ab" "t0")]) ∧
    add_string [] "cd" "t2" =
      (AddOutcome.created (build_record "cd" "t2"),
       [] ++ [(compute_hash "cd", build_record "cd" "t2")]) ∧
    add_string [] "" "t3" = (AddOutcome.invalidValue, []) :=
  ⟨(insert_behavior_C9 [(compute_hash "ab", build_record "ab" "t0")] "ab" "t1").1
      (by decide) (by simp),
   ((insert_behavior_C9 [] "cd" "t2").2.1 (by decide) (by simp)).1,
   (insert_behavior_C9 [] "" "t3").2.2 rfl⟩

/-- C10: every store state reachable from the empty store by inserts and
deletes is well-formed — each key is the SHA-256 hex of its record's value,
repeated in the record's `id`, and the properties are `analyze` of the
value — and both operations preserve well-formedness. -/
theorem store_invariant_C10 :
    (∀ (store : Store) (value now : String),
      StoreWF store → StoreWF (add_string store value now).2) ∧
    (∀ (store : Store) (value : String),
      StoreWF store → StoreWF (remove_post store value)) ∧
    (∀ store : Store, Reachable store → StoreWF store) := by
  refine ⟨add_string_preserves_WF, remove_post_preserves_WF, ?_⟩
  intro store h
  induction h with
  | nil => exact storeWF_nil
  | ins s v now _ ih => exact add_string_preserves_WF s v now ih
  | del s v _ ih => exact remove_post_preserves_WF s v ih

/-- C10 witness: well-formedness of concrete reachable stores. -/
theorem store_invariant_C10_witness :
    StoreWF ((add_string [] "ab" "t1").2) ∧
    StoreWF (remove_post [] "x") ∧
    StoreWF ([] : Store) :=
  ⟨store_invariant_C10.2.2 _ (Reachable.ins [] "ab" "t1" Reachable.nil),
   store_invariant_C10.2.1 [] "x" storeWF_nil,
   store_invariant_C10.2.2 [] Reachable.nil⟩

end StringService
